import Mathlib

/-! Verification of the two algorithmic routines of `generate_map.py`:
the numeric-cell normalizer `parse_one` (the worker of `to_num_series`)
and the marker-size scaler factory `make_scaler`.

Embedding conventions:
* Python floats are modelled by exact rationals `ℚ`; every quantity the
  claims mention (range means, percentile bounds, radii) is exact in `ℚ`.
* `NaN` and the two infinities are explicit constructors (`PyFloat`),
  and `none : Option ℚ` models the `np.nan` result of the parser.
* Strings are handled as their lists of code points (`String.data`);
  the regex `[-+]?\d+(?:\.\d+)?` and `re.findall` are implemented as an
  explicit left-to-right scanner with the same match discipline.
-/

-- Batteries seals rational arithmetic behind `@[irreducible]`; re-open it so
-- that concrete runs of the embedded functions can be settled by `decide`.
attribute [local semireducible] Rat.add Rat.mul Rat.inv Rat.sub Rat.ofScientific

namespace ExpansionMap

/-- ASCII decimal digit: the characters the regex class `\d` matches on the
ASCII data this script processes (codes 48 to 57). -/
def isDig (c : Char) : Bool := decide (48 ≤ c.toNat ∧ c.toNat ≤ 57)

/-- Python `str.lower`, restricted to ASCII letters (codes 65 to 90); this is
the only case folding the NaN-token comparison in `parse_one` can need, since
the token set is pure ASCII. -/
def cLower (c : Char) : Char :=
  if 65 ≤ c.toNat ∧ c.toNat ≤ 90 then Char.ofNat (c.toNat + 32) else c

/-- The whitespace removed by Python `str.strip` (space, tab, newline,
carriage return, vertical tab, form feed, and the no-break space 0xa0). -/
def isPyWs (c : Char) : Bool :=
  c == ' ' || c == '\t' || c == '\n' || c == '\r' ||
  c == '\x0b' || c == '\x0c' || c == '\xa0'

/-- `t.strip()` of the cell text. -/
def pyStrip (l : List Char) : List Char :=
  ((l.dropWhile isPyWs).reverse.dropWhile isPyWs).reverse

/-- `t.lower()` of the cell text. -/
def pyLower (l : List Char) : List Char := l.map cLower

/-- The NaN-like token set of `parse_one`:
`{"nan", "n/a", "na", "none", "null", "-", "--"}`. -/
def nanTokens : List (List Char) :=
  ["nan".data, "n/a".data, "na".data, "none".data, "null".data,
   "-".data, "--".data]

/-- The character normalisation of `parse_one`: drop the no-break space 0xa0
and the space, turn the decimal comma into a period, fold the en dash 0x2013,
the em dash 0x2014 and the minus sign 0x2212 (the regex class of
`re.sub(r"[–—−]", "-", t)`) to the ASCII hyphen, and replace the French range
word `à` (0xe0) by a hyphen. -/
def normalizeNumeric (l : List Char) : List Char :=
  (((l.filter fun c => !(c == '\xa0' || c == ' ')).map
    fun c => if c = ',' then '.' else c).map
    fun c =>
      if c.toNat = 0x2013 ∨ c.toNat = 0x2014 ∨ c.toNat = 0x2212 then '-'
      else c).map
    fun c => if c.toNat = 0xe0 then '-' else c

/-- The optional fractional part `(?:\.\d+)?` at the start of `l`: the
greedily matched characters and the remainder (the part is matched only when
the period is followed by at least one digit). -/
def matchFrac (l : List Char) : List Char × List Char :=
  match l with
  | '.' :: cs =>
    if (cs.takeWhile isDig).isEmpty then ([], l)
    else ('.' :: cs.takeWhile isDig, cs.dropWhile isDig)
  | _ => ([], l)

/-- One match of `[-+]?\d+(?:\.\d+)?` anchored at the start of `l`: the
matched token and the remainder, or `none` when no match starts here (a sign
participates only when at least one digit follows it). -/
def matchNum (l : List Char) : Option (List Char × List Char) :=
  match l with
  | [] => none
  | c :: cs =>
    if c = '-' ∨ c = '+' then
      if (cs.takeWhile isDig).isEmpty then none
      else
        some (c :: (cs.takeWhile isDig ++ (matchFrac (cs.dropWhile isDig)).1),
              (matchFrac (cs.dropWhile isDig)).2)
    else if isDig c then
      some ((c :: cs).takeWhile isDig ++ (matchFrac ((c :: cs).dropWhile isDig)).1,
            (matchFrac ((c :: cs).dropWhile isDig)).2)
    else none

/-- `re.findall` of the numeric pattern: scan left to right; after a match
resume at its end, otherwise advance one character. The fuel argument only
forces structural termination; `findNums` supplies `l.length`, which is
enough since every step either consumes a character or a nonempty match
(`findNumsAux_fuel` below shows the value is fuel-independent). -/
def findNumsAux : Nat → List Char → List (List Char)
  | 0, _ => []
  | _ + 1, [] => []
  | fuel + 1, c :: cs =>
    match matchNum (c :: cs) with
    | some (tok, rest) => tok :: findNumsAux fuel rest
    | none => findNumsAux fuel cs

/-- All matches of `[-+]?\d+(?:\.\d+)?` in `l`, left to right. -/
def findNums (l : List Char) : List (List Char) := findNumsAux l.length l

/-- Value of a digit string. -/
def digitsVal (ds : List Char) : ℕ := ds.foldl (fun n c => 10 * n + (c.toNat - 48)) 0

/-- Value of an unsigned token `\d+(\.\d+)?`. -/
def tokAbs (cs : List Char) : ℚ :=
  match cs.dropWhile isDig with
  | '.' :: fs => (digitsVal (cs.takeWhile isDig) : ℚ) + (digitsVal fs : ℚ) / (10 : ℚ) ^ fs.length
  | _ => (digitsVal (cs.takeWhile isDig) : ℚ)

/-- Python `float` applied to a token matched by the numeric regex; on such
tokens `float` never raises, so the `try`/`except ValueError` around it in the
source is dead and the conversion is total. -/
def tokVal (cs : List Char) : ℚ :=
  match cs with
  | '-' :: rest => - tokAbs rest
  | '+' :: rest => tokAbs rest
  | _ => tokAbs cs

/-- A raw cell handed to `parse_one`: a missing value (`pd.isna`) or text. -/
inductive RawCell where
  | missing
  | text (s : String)

/-- The cell parser `parse_one` inside `to_num_series` (`generate_map.py`
lines 30 to 71); `none` models the `np.nan` result. -/
def parse_one : RawCell → Option ℚ
  | .missing => none
  | .text x =>
    let t := pyStrip x.data
    if t = [] then none
    else if pyLower t ∈ nanTokens then none
    else
      let u := normalizeNumeric t
      let nums := findNums u
      if nums = [] then none
      else
        let vals := nums.map tokVal
        if 2 ≤ vals.length ∧ '-' ∈ u then
          some ((vals.getD 0 0 + vals.getD 1 0) / 2)
        else some (vals.getD 0 0)

example : parse_one (.text "370-450") = some (-40) := by decide
example : parse_one (.text "370 à 450") = some (-40) := by decide
example : parse_one (.text "1 234,5") = some (2469/2) := by decide
example : parse_one (.text ">450") = some 450 := by decide
example : parse_one (.text "450+") = some 450 := by decide
example : parse_one (.text "-5") = some (-5) := by decide
example : parse_one (.text "-12-34") = some (-23) := by decide
example : parse_one (.text " nan ") = none := by decide
example : parse_one (.text "abc") = none := by decide
example : parse_one (.text "410.0") = some 410 := by decide
example : parse_one (.text "370–450") = some (-40) := by decide
example : parse_one (.text " N/A ") = none := by decide

/-- A Python float: a finite value, `nan`, or an infinity. -/
inductive PyFloat where
  | num (q : ℚ)
  | nan
  | posInf
  | negInf
deriving DecidableEq

/-- An argument of the returned `scale` closure: anything `float(v)` succeeds
on, or a value on which it raises `TypeError` or `ValueError` (`bad`). -/
inductive ScalerArg where
  | flt (f : PyFloat)
  | bad
deriving DecidableEq

/-- `pd.Series(values, dtype=float).replace([inf, -inf], nan).dropna()`:
the finite members of the collection, in order. -/
def dropna (vs : List PyFloat) : List ℚ :=
  vs.filterMap fun v => match v with | .num q => some q | _ => none

/-- `Series.min()` of a nonempty series (the `[]` case is never used). -/
def listMin : List ℚ → ℚ
  | [] => 0
  | x :: xs => xs.foldl min x

/-- `Series.max()` of a nonempty series (the `[]` case is never used). -/
def listMax : List ℚ → ℚ
  | [] => 0
  | x :: xs => xs.foldl max x

/-- Floor of a rational, computably (`Int.fdiv` of numerator by denominator);
`ratFloor_eq_floor` below identifies it with the mathematical floor. -/
def ratFloor (q : ℚ) : ℤ := Int.fdiv q.num q.den

/-- `Series.quantile(q)` with the default linear interpolation: the value at
position `q * (n - 1)` of the sorted data, interpolating linearly between the
two neighbouring order statistics. -/
def quantile (l : List ℚ) (q : ℚ) : ℚ :=
  let s := List.insertionSort (· ≤ ·) l
  let pos := q * ((s.length - 1 : ℕ) : ℚ)
  let i := (ratFloor pos).toNat
  let lo := s.getD i 0
  lo + (pos - (i : ℚ)) * (s.getD (i + 1) lo - lo)

/-- The pair `(v_min, v_max)` the closure of `make_scaler` captures
(`generate_map.py` lines 84 to 88), or `none` when the filtered collection is
empty: 5th and 95th percentile, falling back to min and max, then to
`v_min + 1`, whenever `v_max <= v_min`. -/
def scaler_bounds (values : List PyFloat) : Option (ℚ × ℚ) :=
  let vals := dropna values
  if vals = [] then none
  else
    let v_min := quantile vals (1/20)
    let v_max := quantile vals (19/20)
    if v_max ≤ v_min then
      some (listMin vals,
            if listMin vals < listMax vals then listMax vals else listMin vals + 1)
    else some (v_min, v_max)

/-- `max(min(x, v_max), v_min)` with the usual float semantics for the
infinities; `none` models a NaN input (`np.isnan(x)` true). -/
def clampPy (v_min v_max : ℚ) : PyFloat → Option ℚ
  | .num x => some (max (min x v_max) v_min)
  | .nan => none
  | .posInf => some (max v_max v_min)
  | .negInf => some v_min

/-- The closure `scale` returned by `make_scaler` in the nonempty case
(`generate_map.py` lines 90 to 98). -/
def scaleFun (v_min v_max r_min r_max : ℚ) : ScalerArg → ℚ
  | .bad => (r_min + r_max) / 2
  | .flt f =>
    match clampPy v_min v_max f with
    | none => (r_min + r_max) / 2
    | some xc => r_min + (xc - v_min) * (r_max - r_min) / (v_max - v_min)

/-- `make_scaler(values, r_min, r_max)` (`generate_map.py` lines 80 to 100). -/
def make_scaler (values : List PyFloat) (r_min r_max : ℚ) : ScalerArg → ℚ :=
  match scaler_bounds values with
  | none => fun _ => (r_min + r_max) / 2
  | some (vmin, vmax) => scaleFun vmin vmax r_min r_max

example : scaler_bounds [.num 0, .num 20] = some (1, 19) := by decide
example : scaler_bounds [.num 3, .nan, .posInf] = some (3, 4) := by decide
example : scaler_bounds [.nan, .negInf] = none := by decide
example : make_scaler [] 5 16 .bad = 21/2 := by decide
example : make_scaler [.num 0, .num 20] 5 16 (.flt (.num 1)) = 5 := by decide
example : make_scaler [.num 0, .num 20] 5 16 (.flt (.num 19)) = 16 := by decide
example : make_scaler [.num 0, .num 20] 5 16 (.flt (.num 10)) = 21/2 := by decide
example : make_scaler [.num 0, .num 20] 5 16 (.flt .posInf) = 16 := by decide

/-! Helper lemmas about the scanner and the character pipeline. -/

lemma cLower_of_isDig {c : Char} (h : isDig c = true) : cLower c = c := by
  unfold cLower
  split
  · rename_i hc
    simp only [isDig, decide_eq_true_eq] at h
    omega
  · rfl

lemma mem_of_mem_pyStrip {l : List Char} {c : Char} (h : c ∈ pyStrip l) : c ∈ l := by
  simp only [pyStrip, List.mem_reverse] at h
  have h1 := (List.dropWhile_sublist isPyWs).subset h
  rw [List.mem_reverse] at h1
  exact (List.dropWhile_sublist isPyWs).subset h1

lemma noDig_normalize {l : List Char} (h : ∀ c ∈ l, isDig c = false) :
    ∀ c ∈ normalizeNumeric l, isDig c = false := by
  intro c hc
  simp only [normalizeNumeric, List.map_map, List.mem_map, List.mem_filter,
    Function.comp] at hc
  obtain ⟨a, ⟨ha, -⟩, rfl⟩ := hc
  have ha' := h a ha
  split_ifs <;> first | rfl | exact ha'

lemma exists_dig_of_matchNum {l : List Char} {p : List Char × List Char}
    (h : matchNum l = some p) : ∃ c ∈ l, isDig c = true := by
  match l with
  | [] => simp [matchNum] at h
  | c :: cs =>
    simp only [matchNum] at h
    split at h
    · split at h
      · exact absurd h (by simp)
      · rename_i hne
        have hne' : cs.takeWhile isDig ≠ [] := by
          simpa [List.isEmpty_iff] using hne
        obtain ⟨d, hd⟩ := List.exists_mem_of_ne_nil _ hne'
        exact ⟨d, List.mem_cons_of_mem _ ((List.takeWhile_sublist isDig).subset hd),
               List.mem_takeWhile_imp hd⟩
    · split at h
      · exact ⟨c, List.mem_cons_self c cs, by assumption⟩
      · exact absurd h (by simp)

lemma findNumsAux_eq_nil :
    ∀ (fuel : ℕ) (l : List Char), (∀ c ∈ l, isDig c = false) →
      findNumsAux fuel l = [] := by
  intro fuel
  induction fuel with
  | zero => intro l _; rfl
  | succ f ih =>
    intro l h
    cases l with
    | nil => rfl
    | cons c cs =>
      have hm : matchNum (c :: cs) = none := by
        cases hmn : matchNum (c :: cs) with
        | none => rfl
        | some p =>
          obtain ⟨d, hd, hdig⟩ := exists_dig_of_matchNum hmn
          rw [h d hd] at hdig
          exact absurd hdig (by simp)
      simp only [findNumsAux, hm]
      exact ih cs (fun a ha => h a (List.mem_cons_of_mem _ ha))

lemma findNums_eq_nil {l : List Char} (h : ∀ c ∈ l, isDig c = false) :
    findNums l = [] := findNumsAux_eq_nil _ l h

lemma nanTokens_noDig : ∀ m ∈ nanTokens, ∀ x ∈ m, isDig x = false := by decide

lemma noDig_of_pyLower_mem {t : List Char} (h : pyLower t ∈ nanTokens) :
    ∀ c ∈ t, isDig c = false := by
  intro c hc
  cases hdig : isDig c with
  | false => rfl
  | true =>
    have hm : cLower c ∈ pyLower t := List.mem_map_of_mem _ hc
    have := nanTokens_noDig _ h _ hm
    rw [cLower_of_isDig hdig] at this
    rw [this] at hdig
    exact absurd hdig (by simp)

lemma noDig_findNums_of_marker {t : List Char} (h : pyLower t ∈ nanTokens) :
    findNums (normalizeNumeric t) = [] :=
  findNums_eq_nil (noDig_normalize (noDig_of_pyLower_mem h))

/-! Fuel adequacy of the scanner: the result of `findNumsAux` does not depend
on the fuel as soon as it covers the length of the input, so `findNums`
computes the full left-to-right scan of `re.findall`. -/

lemma matchFrac_snd_length (l : List Char) : (matchFrac l).2.length ≤ l.length := by
  unfold matchFrac
  split
  · split
    · simp
    · rename_i cs _ _
      simpa using Nat.le_succ_of_le (List.Sublist.length_le (List.dropWhile_sublist isDig))
  · simp

lemma matchNum_rest_length {l : List Char} {p : List Char × List Char}
    (h : matchNum l = some p) : p.2.length < l.length := by
  match l with
  | [] => simp [matchNum] at h
  | c :: cs =>
    simp only [matchNum] at h
    split at h
    · split at h
      · exact absurd h (by simp)
      · rw [Option.some.injEq] at h
        subst h
        have h1 := matchFrac_snd_length (cs.dropWhile isDig)
        have h2 := List.Sublist.length_le (List.dropWhile_sublist (l := cs) isDig)
        simp only [List.length_cons]
        omega
    · split at h
      · rename_i hdig
        rw [Option.some.injEq] at h
        subst h
        rw [List.dropWhile_cons, if_pos hdig] at *
        have h1 := matchFrac_snd_length (cs.dropWhile isDig)
        have h2 := List.Sublist.length_le (List.dropWhile_sublist (l := cs) isDig)
        simp only [List.length_cons]
        omega
      · exact absurd h (by simp)

lemma findNumsAux_fuel :
    ∀ (f₁ f₂ : ℕ) (l : List Char), l.length ≤ f₁ → l.length ≤ f₂ →
      findNumsAux f₁ l = findNumsAux f₂ l := by
  intro f₁
  induction f₁ with
  | zero =>
    intro f₂ l h1 _
    have hl : l = [] := List.eq_nil_of_length_eq_zero (Nat.le_zero.mp h1)
    subst hl
    cases f₂ <;> rfl
  | succ f ih =>
    intro f₂ l h1 h2
    cases l with
    | nil => cases f₂ <;> rfl
    | cons c cs =>
      cases f₂ with
      | zero => simp at h2
      | succ g =>
        simp only [findNumsAux]
        cases hm : matchNum (c :: cs) with
        | some p =>
          obtain ⟨tok, rest⟩ := p
          have hlt := matchNum_rest_length hm
          simp only [List.length_cons] at hlt h1 h2
          have := ih g rest (by omega) (by omega)
          dsimp only
          rw [this]
        | none =>
          simp only [List.length_cons] at h1 h2
          dsimp only
          exact ih g cs (by omega) (by omega)

lemma findNums_fuel {l : List Char} {f : ℕ} (h : l.length ≤ f) :
    findNumsAux f l = findNums l :=
  findNumsAux_fuel f l.length l h le_rfl

/-! Helper lemmas about the scaler factory. -/

lemma ratFloor_eq_floor (q : ℚ) : ratFloor q = ⌊q⌋ := by
  rw [Rat.floor_def, ratFloor, Int.fdiv_eq_ediv _ (Int.natCast_nonneg q.den)]

lemma scaler_bounds_lt {vs : List PyFloat} {p : ℚ × ℚ}
    (h : scaler_bounds vs = some p) : p.1 < p.2 := by
  simp only [scaler_bounds] at h
  split at h
  · exact absurd h (by simp)
  · split at h
    · rw [Option.some.injEq] at h
      subst h
      dsimp only
      split
      · assumption
      · exact lt_add_one _
    · rw [Option.some.injEq] at h
      subst h
      dsimp only
      rename_i hle
      exact lt_of_not_le hle

lemma scaler_bounds_isSome {vs : List PyFloat} (h : dropna vs ≠ []) :
    ∃ p, scaler_bounds vs = some p := by
  simp only [scaler_bounds]
  rw [if_neg h]
  split <;> exact ⟨_, rfl⟩

lemma make_scaler_of_none {vs : List PyFloat} {r_min r_max : ℚ}
    (h : scaler_bounds vs = none) (a : ScalerArg) :
    make_scaler vs r_min r_max a = (r_min + r_max) / 2 := by
  unfold make_scaler
  rw [h]

lemma make_scaler_eq {vs : List PyFloat} {r_min r_max vmin vmax : ℚ}
    (h : scaler_bounds vs = some (vmin, vmax)) :
    make_scaler vs r_min r_max = scaleFun vmin vmax r_min r_max := by
  unfold make_scaler
  rw [h]

lemma scaler_bounds_of_dropna_nil {vs : List PyFloat} (h : dropna vs = []) :
    scaler_bounds vs = none := by
  simp only [scaler_bounds]
  rw [if_pos h]

lemma clampPy_mem {vmin vmax : ℚ} (hv : vmin ≤ vmax) {f : PyFloat} {xc : ℚ}
    (h : clampPy vmin vmax f = some xc) : vmin ≤ xc ∧ xc ≤ vmax := by
  cases f with
  | num x =>
    rw [clampPy, Option.some.injEq] at h
    subst h
    exact ⟨le_max_right _ _, max_le (min_le_right _ _) hv⟩
  | nan => exact absurd h (by simp [clampPy])
  | posInf =>
    rw [clampPy, Option.some.injEq] at h
    subst h
    exact ⟨le_max_right _ _, max_le le_rfl hv⟩
  | negInf =>
    rw [clampPy, Option.some.injEq] at h
    subst h
    exact ⟨le_rfl, hv⟩

lemma linMap_mem {vmin vmax r_min r_max x : ℚ} (hv : vmin < vmax)
    (hr : r_min ≤ r_max) (h1 : vmin ≤ x) (h2 : x ≤ vmax) :
    r_min ≤ r_min + (x - vmin) * (r_max - r_min) / (vmax - vmin)
    ∧ r_min + (x - vmin) * (r_max - r_min) / (vmax - vmin) ≤ r_max := by
  have hd : (0:ℚ) < vmax - vmin := sub_pos.mpr hv
  constructor
  · have hn : 0 ≤ (x - vmin) * (r_max - r_min) / (vmax - vmin) :=
      div_nonneg (mul_nonneg (sub_nonneg.mpr h1) (sub_nonneg.mpr hr)) hd.le
    linarith
  · have hstep : (x - vmin) * (r_max - r_min) / (vmax - vmin) ≤ r_max - r_min := by
      rw [div_le_iff₀ hd]
      nlinarith [mul_le_mul_of_nonneg_right (sub_le_sub_right h2 vmin)
        (sub_nonneg.mpr hr)]
    linarith

lemma linMap_mono {vmin vmax r_min r_max a b : ℚ} (hv : vmin < vmax)
    (hr : r_min ≤ r_max) (hab : a ≤ b) :
    r_min + (a - vmin) * (r_max - r_min) / (vmax - vmin)
      ≤ r_min + (b - vmin) * (r_max - r_min) / (vmax - vmin) := by
  have hd : (0:ℚ) < vmax - vmin := sub_pos.mpr hv
  have := mul_le_mul_of_nonneg_right (sub_le_sub_right hab vmin)
    (sub_nonneg.mpr hr)
  have := (div_le_div_iff_of_pos_right hd).mpr this
  linarith

lemma scaleFun_num_below {vmin vmax r_min r_max x : ℚ} (hv : vmin < vmax)
    (hx : x < vmin) :
    scaleFun vmin vmax r_min r_max (.flt (.num x)) = r_min := by
  show r_min + (max (min x vmax) vmin - vmin) * (r_max - r_min) / (vmax - vmin) = r_min
  rw [min_eq_left (le_of_lt (lt_trans hx hv)), max_eq_right (le_of_lt hx)]
  simp

lemma scaleFun_num_above {vmin vmax r_min r_max x : ℚ} (hv : vmin < vmax)
    (hx : vmax < x) :
    scaleFun vmin vmax r_min r_max (.flt (.num x)) = r_max := by
  show r_min + (max (min x vmax) vmin - vmin) * (r_max - r_min) / (vmax - vmin) = r_max
  rw [min_eq_right (le_of_lt hx), max_eq_left (le_of_lt hv)]
  rw [mul_div_cancel_left₀ _ (sub_ne_zero.mpr (ne_of_gt hv))]
  ring

lemma scaleFun_num_within {vmin vmax r_min r_max x : ℚ} (h1 : vmin ≤ x)
    (h2 : x ≤ vmax) :
    scaleFun vmin vmax r_min r_max (.flt (.num x)) =
      r_min + (x - vmin) * (r_max - r_min) / (vmax - vmin) := by
  show r_min + (max (min x vmax) vmin - vmin) * (r_max - r_min) / (vmax - vmin) = _
  rw [min_eq_left h2, max_eq_left h1]

/-! Claim theorems. -/

/-- Claim C1, evaluation of the code at the two spec examples: the regex of
`parse_one` extracts `370` and `-450` from `370-450` (the hyphen is consumed
as the sign of the second token), so the code returns the mean `-40`, not the
range mean `410` stated by the spec and by the docstring of `to_num_series`. -/
theorem claim_C1_code_eval :
    parse_one (.text "370-450") = some (-40)
    ∧ parse_one (.text "370 à 450") = some (-40) :=
  ⟨by decide, by decide⟩

/-- Claim C2: the normalizer is total by construction - every branch of the
embedding returns a value, and the only fallible Python call in the source,
`float` on a regex-matched token, cannot raise - and a missing cell as well as
any text without a single decimal digit (whitespace-only or punctuation-only
in particular) degrade to the missing value `none`. -/
theorem claim_C2_total :
    parse_one .missing = none
    ∧ ∀ s : String, (∀ c ∈ s.data, isDig c = false) →
        parse_one (.text s) = none := by
  refine ⟨rfl, ?_⟩
  intro s hs
  have hstrip : ∀ c ∈ pyStrip s.data, isDig c = false :=
    fun c hc => hs c (mem_of_mem_pyStrip hc)
  have hfind : findNums (normalizeNumeric (pyStrip s.data)) = [] :=
    findNums_eq_nil (noDig_normalize hstrip)
  simp only [parse_one]
  split
  · rfl
  · split
    · rfl
    · simp [hfind]

/-- Claim C2 witness: a punctuation-only cell parses to missing. -/
theorem claim_C2_total_witness : parse_one (.text " ?!.,;à–) ") = none :=
  claim_C2_total.2 " ?!.,;à–) " (by decide)

/-- Claim C3: a cell whose stripped and lower-cased text is a missing marker
(the empty string, or one of `nan`, `n/a`, `na`, `none`, `null`, `-`, `--`,
which is exactly the claim set lower-cased) parses to missing. -/
theorem claim_C3_markers :
    ∀ s : String, pyLower (pyStrip s.data) ∈ ([] :: nanTokens) →
      parse_one (.text s) = none := by
  intro s h
  rcases List.mem_cons.mp h with h0 | h1
  · simp only [pyLower] at h0
    have hnil : pyStrip s.data = [] := List.map_eq_nil_iff.mp h0
    simp [parse_one, hnil]
  · simp only [parse_one]
    split
    · rfl
    · simp [h1]

/-- Claim C3 witness: two markers of the claim set, with case and padding. -/
theorem claim_C3_markers_witness :
    parse_one (.text " N/A ") = none ∧ parse_one (.text "NONE") = none :=
  ⟨claim_C3_markers " N/A " (by decide), claim_C3_markers "NONE" (by decide)⟩

/-- Claim C4: degenerate reference collections - when the filtered collection
is empty the scaler is the constant midpoint (in particular
`make_scaler [] 5 16` is constantly `21/2 = 10.5`), and when it is nonempty
the captured bounds exist and the fallback chain makes them strictly ordered,
so the division of the closure by `v_max - v_min` is never by zero. -/
theorem claim_C4_degenerate :
    (∀ (vs : List PyFloat) (r_min r_max : ℚ), dropna vs = [] →
      ∀ a, make_scaler vs r_min r_max a = (r_min + r_max) / 2)
    ∧ (∀ a, make_scaler [] 5 16 a = 21/2)
    ∧ (∀ (vs : List PyFloat) (p : ℚ × ℚ), scaler_bounds vs = some p → p.1 < p.2)
    ∧ (∀ vs : List PyFloat, dropna vs ≠ [] → ∃ p, scaler_bounds vs = some p) := by
  refine ⟨?_, ?_, ?_, ?_⟩
  · intro vs r_min r_max h a
    exact make_scaler_of_none (scaler_bounds_of_dropna_nil h) a
  · intro a
    rw [make_scaler_of_none
      (scaler_bounds_of_dropna_nil (show dropna [] = [] from rfl)) a]
    norm_num
  · intro vs p h
    exact scaler_bounds_lt h
  · intro vs h
    exact scaler_bounds_isSome h

/-- Claim C4 witness: an all-missing collection yields the midpoint, and a
one-element collection gets the strictly ordered fallback bounds `(3, 4)`. -/
theorem claim_C4_degenerate_witness :
    make_scaler [PyFloat.nan, PyFloat.posInf] 5 16 ScalerArg.bad = 21/2
    ∧ (∃ p, scaler_bounds [PyFloat.num 3] = some p ∧ p.1 < p.2) := by
  constructor
  · rw [claim_C4_degenerate.1 [PyFloat.nan, PyFloat.posInf] 5 16 (by decide)
      ScalerArg.bad]
    norm_num
  · exact ⟨(3, 4), by decide,
      claim_C4_degenerate.2.2.1 [PyFloat.num 3] (3, 4) (by decide)⟩

/-- Claim C5: for a scaler built from a nonempty filtered collection with
captured bounds `(v_min, v_max)`: a non-coercible input and a NaN input yield
the midpoint, inputs below `v_min` yield exactly `r_min`, inputs above
`v_max` yield exactly `r_max`, and inputs inside `[v_min, v_max]` are mapped
by the linear map that sends `[v_min, v_max]` onto `[r_min, r_max]`. -/
theorem claim_C5_runtime (vs : List PyFloat) (r_min r_max vmin vmax : ℚ)
    (hb : scaler_bounds vs = some (vmin, vmax)) :
    make_scaler vs r_min r_max .bad = (r_min + r_max) / 2
    ∧ make_scaler vs r_min r_max (.flt .nan) = (r_min + r_max) / 2
    ∧ (∀ x : ℚ, x < vmin → make_scaler vs r_min r_max (.flt (.num x)) = r_min)
    ∧ (∀ x : ℚ, vmax < x → make_scaler vs r_min r_max (.flt (.num x)) = r_max)
    ∧ (∀ x : ℚ, vmin ≤ x → x ≤ vmax →
        make_scaler vs r_min r_max (.flt (.num x)) =
          r_min + (x - vmin) * (r_max - r_min) / (vmax - vmin)) := by
  have hv : vmin < vmax := scaler_bounds_lt hb
  rw [make_scaler_eq hb]
  refine ⟨rfl, rfl, ?_, ?_, ?_⟩
  · intro x hx
    exact scaleFun_num_below hv hx
  · intro x hx
    exact scaleFun_num_above hv hx
  · intro x h1 h2
    exact scaleFun_num_within h1 h2

/-- Claim C5 witness: the scaler over values 0 and 20 has bounds `(1, 19)`;
clamping and the midpoint rule at concrete inputs. -/
theorem claim_C5_runtime_witness :
    make_scaler [PyFloat.num 0, PyFloat.num 20] 5 16 (.flt (.num 0)) = 5
    ∧ make_scaler [PyFloat.num 0, PyFloat.num 20] 5 16 (.flt (.num 100)) = 16
    ∧ make_scaler [PyFloat.num 0, PyFloat.num 20] 5 16 (.flt .nan) = 21/2 := by
  have h := claim_C5_runtime [PyFloat.num 0, PyFloat.num 20] 5 16 1 19 (by decide)
  refine ⟨h.2.2.1 0 (by norm_num), h.2.2.2.1 100 (by norm_num), ?_⟩
  rw [h.2.1]
  norm_num

/-- Claim C6: a scaler built from a nonempty collection (its bounds are
always strictly ordered) is monotone on `[v_min, v_max]` for a target range
with `r_min ≤ r_max`, and is a deterministic pure function. -/
theorem claim_C6_monotone (vs : List PyFloat) (r_min r_max vmin vmax : ℚ)
    (hb : scaler_bounds vs = some (vmin, vmax)) (hr : r_min ≤ r_max) :
    (∀ a b : ℚ, vmin ≤ a → a < b → b ≤ vmax →
      make_scaler vs r_min r_max (.flt (.num a)) ≤
        make_scaler vs r_min r_max (.flt (.num b)))
    ∧ ∀ v : ScalerArg, make_scaler vs r_min r_max v = make_scaler vs r_min r_max v := by
  have hv : vmin < vmax := scaler_bounds_lt hb
  refine ⟨?_, fun _ => rfl⟩
  intro a b ha hab hbv
  rw [make_scaler_eq hb,
    scaleFun_num_within ha (le_of_lt (lt_of_lt_of_le hab hbv)),
    scaleFun_num_within (le_of_lt (lt_of_le_of_lt ha hab)) hbv]
  exact linMap_mono hv hr (le_of_lt hab)

/-- Claim C6 witness: monotonicity at `2 < 18` inside the bounds `(1, 19)`. -/
theorem claim_C6_monotone_witness :
    make_scaler [PyFloat.num 0, PyFloat.num 20] 5 16 (.flt (.num 2)) ≤
      make_scaler [PyFloat.num 0, PyFloat.num 20] 5 16 (.flt (.num 18)) :=
  (claim_C6_monotone [PyFloat.num 0, PyFloat.num 20] 5 16 1 19 (by decide)
    (by norm_num)).1 2 18 (by norm_num) (by norm_num) (by norm_num)

/-- Claim C7: the four spec examples with noise or sign, and the general
rule: whenever the scan of the normalized cell extracts exactly one token,
the parser returns the value of that token. -/
theorem claim_C7_single :
    parse_one (.text ">450") = some 450
    ∧ parse_one (.text "~450") = some 450
    ∧ parse_one (.text "450+") = some 450
    ∧ parse_one (.text "-5") = some (-5)
    ∧ ∀ (s : String) (tok : List Char),
        findNums (normalizeNumeric (pyStrip s.data)) = [tok] →
        parse_one (.text s) = some (tokVal tok) := by
  refine ⟨by decide, by decide, by decide, by decide, ?_⟩
  intro s tok h
  simp only [parse_one]
  have hne : ¬ pyStrip s.data = [] := by
    intro h0
    rw [h0, show findNums (normalizeNumeric []) = [] from rfl] at h
    exact List.cons_ne_nil tok [] h.symm
  have hmark : ¬ pyLower (pyStrip s.data) ∈ nanTokens := by
    intro hmem
    rw [noDig_findNums_of_marker hmem] at h
    exact absurd h (by simp)
  rw [if_neg hne, if_neg hmark, h]
  simp

/-- Claim C7 witness: a single embedded decimal among unit noise. -/
theorem claim_C7_single_witness :
    parse_one (.text "circa 12.5 MW") = some (25/2) := by
  rw [claim_C7_single.2.2.2.2 "circa 12.5 MW" ['1', '2', '.', '5'] (by decide)]
  decide

/-- Claim C8: spaces and no-break spaces are stripped and the comma is the
decimal separator, so both renderings of `1234.5` parse to `2469/2`. -/
theorem claim_C8_locale :
    parse_one (.text "1 234,5") = some (2469/2)
    ∧ parse_one (.text "1\xa0234,5") = some (2469/2) :=
  ⟨by decide, by decide⟩

/-- Claim C9: the known ambiguity of the range heuristic - `-12-34` extracts
the two signed tokens `-12` and `-34` and contains a hyphen, so the parser
averages them to `-23`. -/
theorem claim_C9_ambiguous : parse_one (.text "-12-34") = some (-23) := by
  decide

/-- Claim C10: for every reference collection, every target range with
`r_min ≤ r_max`, and every input whatsoever (finite, infinite, NaN or
non-coercible), the scaler output lies in `[r_min, r_max]`. -/
theorem claim_C10_bounded (vs : List PyFloat) (r_min r_max : ℚ)
    (hr : r_min ≤ r_max) (a : ScalerArg) :
    r_min ≤ make_scaler vs r_min r_max a
    ∧ make_scaler vs r_min r_max a ≤ r_max := by
  cases hb : scaler_bounds vs with
  | none =>
    rw [make_scaler_of_none hb]
    constructor <;> linarith
  | some p =>
    obtain ⟨vmin, vmax⟩ := p
    have hv : vmin < vmax := scaler_bounds_lt hb
    rw [make_scaler_eq hb]
    cases a with
    | bad =>
      simp only [scaleFun]
      constructor <;> linarith
    | flt f =>
      cases hc : clampPy vmin vmax f with
      | none =>
        simp only [scaleFun, hc]
        constructor <;> linarith
      | some xc =>
        obtain ⟨hx1, hx2⟩ := clampPy_mem (le_of_lt hv) hc
        simp only [scaleFun, hc]
        exact linMap_mem hv hr hx1 hx2

/-- Claim C10 witness: a negative-infinity input to a concrete scaler stays
inside the target range. -/
theorem claim_C10_bounded_witness :
    5 ≤ make_scaler [PyFloat.num 1, PyFloat.nan] 5 16 (.flt .negInf)
    ∧ make_scaler [PyFloat.num 1, PyFloat.nan] 5 16 (.flt .negInf) ≤ 16 :=
  claim_C10_bounded [PyFloat.num 1, PyFloat.nan] 5 16 (by norm_num) (.flt .negInf)

end ExpansionMap
